import Mathlib

/-!
Verification of the AxCrypt security core (`core/crypto.py`, `core/user_manager.py`,
`core/history.py`) against its natural-language specification.

Modelling conventions:
* bytes are `List Nat` (each element a byte value);
* external cryptographic library primitives (scrypt key derivation, the AES-256-CBC
  cipher, HMAC-SHA256, base64url, JSON codecs) are abstract function parameters,
  constrained only by the inverse properties the library guarantees;
* the repository's own logic — envelope framing, header parsing, PKCS#7 padding
  discipline, lockout and OTP state machines, the HMAC chain, the wipe loop and the
  token split — is defined concretely, mirroring the Python source line by line;
* `time.time()` becomes an explicit `now : Nat` argument, and fresh randomness
  (salts, IVs, random wipe bytes) becomes explicit arguments.
-/

namespace AxCrypt

abbrev Bytes := List Nat

/-! ## PKCS#7 padding (block size 16, as `PKCS7(128)` from the cryptography library) -/

/-- PKCS#7 padding for 16-byte blocks: append `p` bytes of value `p`
where `p = 16 - len % 16` (so `1 ≤ p ≤ 16`). -/
def pkcs7Pad (data : Bytes) : Bytes :=
  data ++ List.replicate (16 - data.length % 16) (16 - data.length % 16)

/-- PKCS#7 unpadding: the last byte `p` must satisfy `1 ≤ p ≤ 16`, the total
length must be a positive multiple of 16, and the last `p` bytes must all
equal `p`; otherwise unpadding fails. -/
def pkcs7Unpad (data : Bytes) : Option Bytes :=
  match data.getLast? with
  | none => none
  | some p =>
    if 1 ≤ p ∧ p ≤ 16 ∧ data.length % 16 = 0 ∧ p ≤ data.length ∧
        (data.drop (data.length - p)).all (fun b => b = p) then
      some (data.take (data.length - p))
    else none

theorem pkcs7Pad_length_mod (data : Bytes) : (pkcs7Pad data).length % 16 = 0 := by
  unfold pkcs7Pad
  simp only [List.length_append, List.length_replicate]
  omega

theorem pkcs7Unpad_pkcs7Pad (data : Bytes) : pkcs7Unpad (pkcs7Pad data) = some data := by
  have hmlt : data.length % 16 < 16 := Nat.mod_lt data.length (by omega)
  have hp1 : 1 ≤ 16 - data.length % 16 := by omega
  have hp16 : 16 - data.length % 16 ≤ 16 := by omega
  have hrep : (List.replicate (16 - data.length % 16) (16 - data.length % 16) : Bytes) ≠ [] := by
    simp only [ne_eq, List.replicate_eq_nil_iff]
    omega
  have hlast : (pkcs7Pad data).getLast? = some (16 - data.length % 16) := by
    unfold pkcs7Pad
    rw [List.getLast?_append_of_ne_nil data hrep, List.getLast?_eq_getLast _ hrep]
    exact congrArg some (List.eq_of_mem_replicate (List.getLast_mem hrep))
  have hlen : (pkcs7Pad data).length = data.length + (16 - data.length % 16) := by
    unfold pkcs7Pad
    simp
  have hsub : (pkcs7Pad data).length - (16 - data.length % 16) = data.length := by
    omega
  have hdrop : (pkcs7Pad data).drop data.length =
      List.replicate (16 - data.length % 16) (16 - data.length % 16) := by
    unfold pkcs7Pad
    rw [List.drop_left]
  have htake : (pkcs7Pad data).take data.length = data := by
    unfold pkcs7Pad
    rw [List.take_left]
  have hcond : 1 ≤ 16 - data.length % 16 ∧ (16 - data.length % 16) ≤ 16 ∧
      (pkcs7Pad data).length % 16 = 0 ∧ (16 - data.length % 16) ≤ (pkcs7Pad data).length ∧
      ((pkcs7Pad data).drop ((pkcs7Pad data).length - (16 - data.length % 16))).all
        (fun b => b = 16 - data.length % 16) := by
    refine ⟨hp1, hp16, ?_, by omega, ?_⟩
    · rw [hlen]
      omega
    · rw [hsub, hdrop]
      simp [List.all_eq_true]
  unfold pkcs7Unpad
  rw [hlast]
  dsimp only
  rw [if_pos hcond, hsub, htake]

/-! ## The file envelope (`encrypt_file` / `decrypt_file` in `core/crypto.py`)

On-disk layout: `salt(16) ++ iv(16) ++ otdFlag(1) ++ stegLen(2, big-endian) ++ steg ++ ciphertext`.
The scrypt KDF `dk` and the AES-256-CBC pair `aesEnc`/`aesDec` are abstract parameters
(arguments: key, iv, data). -/

/-- `struct.pack(">H", n)`: two-byte big-endian encoding. -/
def pack16be (n : Nat) : Bytes := [n / 256 % 256, n % 256]

/-- `_build_header`: `otd` flag byte, 2-byte big-endian steg length, steg payload. -/
def buildHeader (otd : Bool) (steg : Bytes) : Bytes :=
  (if otd then [1] else [0]) ++ pack16be steg.length ++ steg

/-- `encrypt_file`, as the byte-level transformation it writes to `src_path + ".enc"`:
header framing followed by the CBC encryption of the PKCS#7-padded content.
`dk` is the scrypt derivation, `aesEnc key iv data` the AES-256-CBC encryption. -/
def encrypt_file (dk : String → Bytes → Bytes) (aesEnc : Bytes → Bytes → Bytes → Bytes)
    (content : Bytes) (password : String) (salt iv : Bytes) (otd : Bool) (steg : Bytes) : Bytes :=
  let key := dk password salt
  salt ++ iv ++ buildHeader otd steg ++ aesEnc key iv (pkcs7Pad content)

/-- `decrypt_file`, as the byte-level parse-and-decrypt of an envelope file:
slices salt, iv, flag, steg length, steg payload, ciphertext; derives the key;
CBC-decrypts; unpads. Returns `some (plaintext, wasOtd)` on success, `none` on
any failure (short file or bad padding — reported by the source as the single
generic wrong-password error). -/
def decrypt_file (dk : String → Bytes → Bytes) (aesDec : Bytes → Bytes → Bytes → Bytes)
    (fileBytes : Bytes) (password : String) : Option (Bytes × Bool) :=
  if fileBytes.length < 35 then none
  else
    let salt := fileBytes.take 16
    let iv := (fileBytes.drop 16).take 16
    let flag := (fileBytes.drop 32).headD 0
    let hi := (fileBytes.drop 33).headD 0
    let lo := (fileBytes.drop 34).headD 0
    let slen := hi * 256 + lo
    let ciphertext := (fileBytes.drop 35).drop slen
    let key := dk password salt
    match pkcs7Unpad (aesDec key iv ciphertext) with
    | some plaintext => some (plaintext, flag = 1)
    | none => none

theorem take_16_of_append (salt rest : Bytes) (hsalt : salt.length = 16) :
    (salt ++ rest).take 16 = salt := by
  rw [← hsalt, List.take_left]

theorem drop_16_of_append (salt rest : Bytes) (hsalt : salt.length = 16) :
    (salt ++ rest).drop 16 = rest := by
  rw [← hsalt, List.drop_left]

theorem drop_32_of_append (salt iv rest : Bytes) (hsalt : salt.length = 16)
    (hiv : iv.length = 16) : (salt ++ (iv ++ rest)).drop 32 = rest := by
  have h1 : (salt ++ (iv ++ rest)).drop 32 = ((salt ++ (iv ++ rest)).drop 16).drop 16 := by
    rw [List.drop_drop]
  rw [h1, drop_16_of_append salt _ hsalt, drop_16_of_append iv rest hiv]

/-- C1: encrypting any content (empty included) and then decrypting the
resulting envelope with the same password succeeds and returns the original
content, together with the OTD flag that was written.  `dk` is the scrypt
derivation and `aesEnc`/`aesDec` the AES-256-CBC pair, assumed mutually
inverse for the derived key and IV, as the cryptography library guarantees. -/
theorem encrypt_file_decrypt_file_roundtrip
    (dk : String → Bytes → Bytes) (aesEnc aesDec : Bytes → Bytes → Bytes → Bytes)
    (content : Bytes) (password : String) (salt iv : Bytes) (otd : Bool) (steg : Bytes)
    (hsalt : salt.length = 16) (hiv : iv.length = 16) (hsteg : steg.length < 65536)
    (hinv : ∀ d, aesDec (dk password salt) iv (aesEnc (dk password salt) iv d) = d) :
    decrypt_file dk aesDec (encrypt_file dk aesEnc content password salt iv otd steg) password =
      some (content, otd) := by
  have hfb : encrypt_file dk aesEnc content password salt iv otd steg =
      salt ++ (iv ++ ((if otd then 1 else 0) :: (steg.length / 256 % 256) ::
        (steg.length % 256) :: (steg ++ aesEnc (dk password salt) iv (pkcs7Pad content)))) := by
    unfold encrypt_file buildHeader pack16be
    cases otd <;> simp [List.append_assoc]
  rw [hfb]
  have hrest32 : (salt ++ (iv ++ ((if otd then 1 else 0) :: (steg.length / 256 % 256) ::
      (steg.length % 256) :: (steg ++ aesEnc (dk password salt) iv (pkcs7Pad content))))).drop 32 =
      ((if otd then 1 else 0) :: (steg.length / 256 % 256) ::
        (steg.length % 256) :: (steg ++ aesEnc (dk password salt) iv (pkcs7Pad content))) :=
    drop_32_of_append _ _ _ hsalt hiv
  have hrest33 : (salt ++ (iv ++ ((if otd then 1 else 0) :: (steg.length / 256 % 256) ::
      (steg.length % 256) :: (steg ++ aesEnc (dk password salt) iv (pkcs7Pad content))))).drop 33 =
      ((steg.length / 256 % 256) ::
        (steg.length % 256) :: (steg ++ aesEnc (dk password salt) iv (pkcs7Pad content))) := by
    have h1 : (33 : Nat) = 32 + 1 := by norm_num
    rw [h1, ← List.drop_drop, hrest32]
    rfl
  have hrest34 : (salt ++ (iv ++ ((if otd then 1 else 0) :: (steg.length / 256 % 256) ::
      (steg.length % 256) :: (steg ++ aesEnc (dk password salt) iv (pkcs7Pad content))))).drop 34 =
      ((steg.length % 256) :: (steg ++ aesEnc (dk password salt) iv (pkcs7Pad content))) := by
    have h1 : (34 : Nat) = 33 + 1 := by norm_num
    rw [h1, ← List.drop_drop, hrest33]
    rfl
  have hrest35 : (salt ++ (iv ++ ((if otd then 1 else 0) :: (steg.length / 256 % 256) ::
      (steg.length % 256) :: (steg ++ aesEnc (dk password salt) iv (pkcs7Pad content))))).drop 35 =
      steg ++ aesEnc (dk password salt) iv (pkcs7Pad content) := by
    have h1 : (35 : Nat) = 34 + 1 := by norm_num
    rw [h1, ← List.drop_drop, hrest34]
    rfl
  have hlen : ¬ ((salt ++ (iv ++ ((if otd then 1 else 0) :: (steg.length / 256 % 256) ::
      (steg.length % 256) :: (steg ++ aesEnc (dk password salt) iv (pkcs7Pad content))))).length < 35) := by
    simp only [List.length_append, List.length_cons, hsalt, hiv]
    omega
  have harith : steg.length / 256 % 256 * 256 + steg.length % 256 = steg.length := by
    omega
  unfold decrypt_file
  rw [if_neg hlen]
  simp only [take_16_of_append salt _ hsalt, drop_16_of_append salt _ hsalt,
    take_16_of_append iv _ hiv, hrest32, hrest33, hrest34, hrest35, List.headD_cons, harith,
    List.drop_left]
  rw [hinv (pkcs7Pad content), pkcs7Unpad_pkcs7Pad]
  cases otd <;> simp

/-- Witness for C1 at concrete inputs: the identity "cipher" satisfies the
inverse hypothesis, and the length side conditions hold for 16-byte salt/iv. -/
theorem encrypt_file_decrypt_file_roundtrip_witness :
    decrypt_file (fun _ s => s) (fun _ _ d => d)
      (encrypt_file (fun _ s => s) (fun _ _ d => d) [10, 20, 30] "pw"
        (List.replicate 16 0) (List.replicate 16 1) true [7]) "pw" =
      some ([10, 20, 30], true) :=
  encrypt_file_decrypt_file_roundtrip (fun _ s => s) (fun _ _ d => d) (fun _ _ d => d)
    [10, 20, 30] "pw" (List.replicate 16 0) (List.replicate 16 1) true [7]
    (by simp) (by simp) (by norm_num) (fun d => rfl)

/-! ## Password hashing (`hash_password` / `verify_password` in `core/crypto.py`) -/

/-- `hash_password`: `salt + derive_key(password, salt)`; the 16-byte salt models
the `secrets.token_bytes(SALT_SIZE)` drawn when the caller passes no salt. -/
def hash_password (dk : String → Bytes → Bytes) (password : String) (salt : Bytes) : Bytes :=
  salt ++ dk password salt

/-- `verify_password`: split the blob into `blob[:16]` (salt) and `blob[16:]`
(stored key), re-derive and compare with `hmac.compare_digest`.  Python slicing
and `compare_digest` on bytes are total, so the `except` branch that maps
internal errors to `False` is unreachable for byte-string blobs; the model is
the `try` body, a total `Bool`-valued function. -/
def verify_password (dk : String → Bytes → Bytes) (password : String) (blob : Bytes) : Bool :=
  dk password (blob.take 16) == blob.drop 16

/-- C9: verifying a password against its own fresh hash succeeds, and
`verify_password` is a total boolean function of an arbitrary blob (any
internal error would yield `False`; no exception escapes). -/
theorem verify_password_hash_password
    (dk : String → Bytes → Bytes) (password : String) (salt blob : Bytes)
    (hsalt : salt.length = 16) :
    verify_password dk password (hash_password dk password salt) = true ∧
      (verify_password dk password blob = true ∨ verify_password dk password blob = false) := by
  constructor
  · unfold verify_password hash_password
    rw [take_16_of_append salt _ hsalt, drop_16_of_append salt _ hsalt]
    exact beq_self_eq_true (dk password salt)
  · cases h : verify_password dk password blob
    · right
      rfl
    · left
      rfl

/-- Witness for C9 at a concrete key-derivation function, salt and blob. -/
theorem verify_password_hash_password_witness :
    verify_password (fun _ _ => [5]) "pw"
        (hash_password (fun _ _ => [5]) "pw" (List.replicate 16 0)) = true ∧
      (verify_password (fun _ _ => [5]) "pw" [1, 2, 3] = true ∨
        verify_password (fun _ _ => [5]) "pw" [1, 2, 3] = false) :=
  verify_password_hash_password (fun _ _ => [5]) "pw" (List.replicate 16 0) [1, 2, 3] (by simp)

/-! ## Secure delete (`secure_delete` in `core/crypto.py`)

The file system is modelled as the content of the single path involved
(`none` = absent), and the observable behaviour of one call as the ordered
sequence of full-file overwrites it performs before unlinking. -/

/-- `patterns[i % len(patterns)](i)`: all-zero bytes, all-one bytes, or the
`secrets.token_bytes(size)` randomness (modelled by `randB i size`). -/
def wipePattern (randB : Nat → Nat → Bytes) (size i : Nat) : Bytes :=
  match i % 3 with
  | 0 => List.replicate size 0
  | 1 => List.replicate size 255
  | _ => randB i size

/-- `secure_delete`: absent path succeeds with no writes; an empty file is
removed directly; otherwise `passes` full-file overwrites (each `seek(0)`,
write of a size-length pattern, flush, fsync) followed by `os.remove`.
Returns (result, overwrite sequence, final file state). -/
def secure_delete (randB : Nat → Nat → Bytes) (file : Option Bytes) (passes : Nat) :
    Bool × List Bytes × Option Bytes :=
  match file with
  | none => (true, [], none)
  | some content =>
    if content.length = 0 then (true, [], none)
    else (true, (List.range passes).map (wipePattern randB content.length), none)

/-- C8: with `passes = 7` on a non-empty file, `secure_delete` performs exactly
seven overwrites — zeros, ones, random, zeros, ones, random, zeros, following
`i % 3` — each covering the full original length, then removes the file; an
empty file is removed directly with no overwrites. -/
theorem secure_delete_seven_passes
    (randB : Nat → Nat → Bytes) (content : Bytes)
    (hne : content ≠ []) (hrand : ∀ i n, (randB i n).length = n) :
    secure_delete randB (some content) 7 =
      (true, [List.replicate content.length 0, List.replicate content.length 255,
        randB 2 content.length, List.replicate content.length 0,
        List.replicate content.length 255, randB 5 content.length,
        List.replicate content.length 0], none) ∧
      (∀ w ∈ (secure_delete randB (some content) 7).2.1, w.length = content.length) ∧
      secure_delete randB (some []) 7 = (true, [], none) := by
  have hlen : content.length ≠ 0 := fun h => hne (List.length_eq_zero.mp h)
  have htrace : secure_delete randB (some content) 7 =
      (true, [List.replicate content.length 0, List.replicate content.length 255,
        randB 2 content.length, List.replicate content.length 0,
        List.replicate content.length 255, randB 5 content.length,
        List.replicate content.length 0], none) := by
    unfold secure_delete
    dsimp only
    rw [if_neg hlen]
    rfl
  refine ⟨htrace, ?_, rfl⟩
  rw [htrace]
  intro w hw
  simp only [List.mem_cons, List.not_mem_nil, or_false] at hw
  rcases hw with h | h | h | h | h | h | h <;> subst h <;> simp [hrand]

/-- Witness for C8 on a concrete two-byte file and a concrete
length-respecting randomness source. -/
theorem secure_delete_seven_passes_witness :
    secure_delete (fun _ n => List.replicate n 9) (some [1, 2]) 7 =
      (true, [List.replicate 2 0, List.replicate 2 255, List.replicate 2 9,
        List.replicate 2 0, List.replicate 2 255, List.replicate 2 9,
        List.replicate 2 0], none) ∧
      (∀ w ∈ (secure_delete (fun _ n => List.replicate n 9) (some [1, 2]) 7).2.1,
        w.length = 2) ∧
      secure_delete (fun _ n => List.replicate n 9) (some []) 7 = (true, [], none) :=
  secure_delete_seven_passes (fun _ n => List.replicate n 9) [1, 2]
    (by simp) (fun i n => by simp)

/-! ## In-place encryption (`encrypt_file_replace` in `core/crypto.py`)

The file system view is the original path's content plus the temporary file;
`Faults` injects a failure into each fallible I/O step (the Python exception
at that point).  The `except` handler around the post-`mkstemp` block removes
the temporary file and re-raises, and the outer handler turns the exception
into a failure result. -/

structure FS where
  orig : Option Bytes
  temp : Option Bytes

structure Faults where
  readFail : Bool
  mkstempFail : Bool
  writeFail : Bool
  fsyncFail : Bool
  replaceFail : Bool

structure ReplaceOutcome where
  ok : Bool
  tempCreated : Bool
  fs : FS

/-- `encrypt_file_replace`: read the whole source, encrypt in memory (the same
bytes `encrypt_file` produces), write them to a fresh temp file in the same
directory, flush + fsync, then atomically `os.replace` the temp file over the
original.  Any exception after the temp file exists triggers the cleanup
handler (remove temp, re-raise) and the outer handler returns failure. -/
def encrypt_file_replace (dk : String → Bytes → Bytes) (aesEnc : Bytes → Bytes → Bytes → Bytes)
    (fl : Faults) (fs : FS) (password : String) (salt iv : Bytes) (otd : Bool) (steg : Bytes) :
    ReplaceOutcome :=
  match fs.orig with
  | none => ⟨false, false, fs⟩
  | some plaintext =>
    if fl.readFail then ⟨false, false, fs⟩
    else
      let out := encrypt_file dk aesEnc plaintext password salt iv otd steg
      if fl.mkstempFail then ⟨false, false, fs⟩
      else
        if fl.writeFail then ⟨false, true, ⟨fs.orig, none⟩⟩
        else if fl.fsyncFail then ⟨false, true, ⟨fs.orig, none⟩⟩
        else if fl.replaceFail then ⟨false, true, ⟨fs.orig, none⟩⟩
        else ⟨true, true, ⟨some out, none⟩⟩

/-- C2: whenever the in-place encryption reaches the point where the temporary
file exists and then any step fails (write, fsync, or the atomic replace), the
call returns a failure result, the temporary file is gone, and the content at
the original path is exactly its pre-call content. -/
theorem encrypt_file_replace_all_or_nothing
    (dk : String → Bytes → Bytes) (aesEnc : Bytes → Bytes → Bytes → Bytes)
    (fl : Faults) (fs : FS) (password : String) (salt iv : Bytes) (otd : Bool) (steg : Bytes)
    (ptx : Bytes) (horig : fs.orig = some ptx)
    (hread : fl.readFail = false) (hmk : fl.mkstempFail = false)
    (hfail : fl.writeFail = true ∨ fl.fsyncFail = true ∨ fl.replaceFail = true) :
    (encrypt_file_replace dk aesEnc fl fs password salt iv otd steg).tempCreated = true ∧
      (encrypt_file_replace dk aesEnc fl fs password salt iv otd steg).ok = false ∧
      (encrypt_file_replace dk aesEnc fl fs password salt iv otd steg).fs.temp = none ∧
      (encrypt_file_replace dk aesEnc fl fs password salt iv otd steg).fs.orig = fs.orig := by
  unfold encrypt_file_replace
  rw [horig]
  rcases hfail with h | h | h
  · simp [hread, hmk, h]
  · cases hw : fl.writeFail <;> simp [hread, hmk, hw, h]
  · cases hw : fl.writeFail <;> cases hy : fl.fsyncFail <;> simp [hread, hmk, hw, hy, h]

/-- Witness for C2: a concrete state whose replace step fails. -/
theorem encrypt_file_replace_all_or_nothing_witness :
    (encrypt_file_replace (fun _ s => s) (fun _ _ d => d) ⟨false, false, false, false, true⟩
        ⟨some [1, 2, 3], none⟩ "pw" (List.replicate 16 0) (List.replicate 16 1)
        false []).tempCreated = true ∧
      (encrypt_file_replace (fun _ s => s) (fun _ _ d => d) ⟨false, false, false, false, true⟩
        ⟨some [1, 2, 3], none⟩ "pw" (List.replicate 16 0) (List.replicate 16 1)
        false []).ok = false ∧
      (encrypt_file_replace (fun _ s => s) (fun _ _ d => d) ⟨false, false, false, false, true⟩
        ⟨some [1, 2, 3], none⟩ "pw" (List.replicate 16 0) (List.replicate 16 1)
        false []).fs.temp = none ∧
      (encrypt_file_replace (fun _ s => s) (fun _ _ d => d) ⟨false, false, false, false, true⟩
        ⟨some [1, 2, 3], none⟩ "pw" (List.replicate 16 0) (List.replicate 16 1)
        false []).fs.orig = (⟨some [1, 2, 3], none⟩ : FS).orig :=
  encrypt_file_replace_all_or_nothing (fun _ s => s) (fun _ _ d => d)
    ⟨false, false, false, false, true⟩ ⟨some [1, 2, 3], none⟩ "pw"
    (List.replicate 16 0) (List.replicate 16 1) false [] [1, 2, 3]
    rfl rfl rfl (Or.inr (Or.inr rfl))

/-! ## Progress callbacks of `encrypt_file`

The streaming loop reads 8192-byte chunks and, after each one, calls
`progress_cb(min(processed / file_size, 0.95))`; after the final block it
calls `progress_cb(1.0)`.  Arithmetic is modelled over `ℚ`. -/

/-- The values passed to `progress_cb` inside the read loop, starting from
`processed` bytes already handled, with `rest` still to stream. -/
def streamCalls (size : ℚ) (processed : Nat) (rest : Bytes) : List ℚ :=
  if h : rest = [] then []
  else
    min (((processed + min rest.length 8192 : Nat) : ℚ) / size) (95 / 100) ::
      streamCalls size (processed + min rest.length 8192) (rest.drop 8192)
termination_by rest.length
decreasing_by
  simp only [List.length_drop]
  have hpos : 0 < rest.length := List.length_pos.mpr h
  omega

/-- `file_size = os.path.getsize(src_path) or 1`. -/
def encFileSize (content : Bytes) : ℚ :=
  if content.length = 0 then 1 else (content.length : ℚ)

/-- The full sequence of `progress_cb` invocations of one successful
`encrypt_file` call: the streaming values followed by the final `1.0`. -/
def encryptProgressCalls (content : Bytes) : List ℚ :=
  streamCalls (encFileSize content) 0 content ++ [1]

theorem encFileSize_pos (content : Bytes) : 0 < encFileSize content := by
  unfold encFileSize
  split
  · norm_num
  · rename_i h
    have : 0 < content.length := Nat.pos_of_ne_zero h
    exact_mod_cast this

theorem streamCalls_bounds (size : ℚ) (hsize : 0 < size) :
    ∀ n rest processed, rest.length ≤ n →
      ∀ q ∈ streamCalls size processed rest, 0 ≤ q ∧ q ≤ 95 / 100 := by
  intro n
  induction n with
  | zero =>
    intro rest processed hle q hq
    have hr : rest = [] := List.eq_nil_of_length_eq_zero (Nat.le_zero.mp hle)
    rw [streamCalls, dif_pos hr] at hq
    exact absurd hq (List.not_mem_nil q)
  | succ n ih =>
    intro rest processed hle q hq
    by_cases hr : rest = []
    · rw [streamCalls, dif_pos hr] at hq
      exact absurd hq (List.not_mem_nil q)
    · rw [streamCalls, dif_neg hr] at hq
      rcases List.mem_cons.mp hq with h | h
      · subst h
        constructor
        · exact le_min (div_nonneg (by positivity) (le_of_lt hsize)) (by norm_num)
        · exact min_le_right _ _
      · have hlen : (rest.drop 8192).length ≤ n := by
          have hpos : 0 < rest.length := List.length_pos.mpr hr
          simp only [List.length_drop]
          omega
        exact ih (rest.drop 8192) (processed + min rest.length 8192) hlen q h

theorem streamCalls_chain (size : ℚ) (hsize : 0 < size) :
    ∀ n rest processed, rest.length ≤ n →
      List.Chain' (fun a b => a ≤ b) (streamCalls size processed rest ++ [1]) := by
  have hmono : ∀ a b : Nat, a ≤ b →
      min ((a : ℚ) / size) (95 / 100) ≤ min ((b : ℚ) / size) (95 / 100) := by
    intro a b hab
    refine min_le_min ?_ (le_refl _)
    apply div_le_div_of_nonneg_right ?_ (le_of_lt hsize)
    exact_mod_cast hab
  intro n
  induction n with
  | zero =>
    intro rest processed hle
    have hr : rest = [] := List.eq_nil_of_length_eq_zero (Nat.le_zero.mp hle)
    rw [streamCalls, dif_pos hr]
    simp
  | succ n ih =>
    intro rest processed hle
    by_cases hr : rest = []
    · rw [streamCalls, dif_pos hr]
      simp
    · rw [streamCalls, dif_neg hr, List.cons_append, List.chain'_cons']
      have hlen : (rest.drop 8192).length ≤ n := by
        have hpos : 0 < rest.length := List.length_pos.mpr hr
        simp only [List.length_drop]
        omega
      refine ⟨?_, ih (rest.drop 8192) (processed + min rest.length 8192) hlen⟩
      intro y hy
      by_cases hr2 : rest.drop 8192 = []
      · rw [streamCalls, dif_pos hr2] at hy
        simp only [List.nil_append, List.head?_cons, Option.mem_def, Option.some.injEq] at hy
        subst hy
        calc min (((processed + min rest.length 8192 : Nat) : ℚ) / size) (95 / 100)
            ≤ 95 / 100 := min_le_right _ _
          _ ≤ 1 := by norm_num
      · rw [streamCalls, dif_neg hr2] at hy
        simp only [List.cons_append, List.head?_cons, Option.mem_def, Option.some.injEq] at hy
        subst hy
        exact hmono _ _ (Nat.le_add_right _ _)

/-- C7: for a non-empty input the progress values of a successful
`encrypt_file` call are monotonically non-decreasing, every value before the
final one lies in `[0, 0.95]`, and the final invocation passes exactly `1.0`. -/
theorem encrypt_file_progress_spec (content : Bytes) (hne : content ≠ []) :
    List.Chain' (fun a b => a ≤ b) (encryptProgressCalls content) ∧
      encryptProgressCalls content = streamCalls (encFileSize content) 0 content ++ [1] ∧
      (∀ q ∈ streamCalls (encFileSize content) 0 content, 0 ≤ q ∧ q ≤ 95 / 100) ∧
      (encryptProgressCalls content).getLast? = some 1 := by
  have hsize := encFileSize_pos content
  refine ⟨?_, rfl, ?_, ?_⟩
  · exact streamCalls_chain (encFileSize content) hsize content.length content 0 (le_refl _)
  · exact streamCalls_bounds (encFileSize content) hsize content.length content 0 (le_refl _)
  · unfold encryptProgressCalls
    rw [List.getLast?_append_of_ne_nil _ (by simp)]
    rfl

/-- Witness for C7 on a concrete three-byte file. -/
theorem encrypt_file_progress_spec_witness :
    List.Chain' (fun a b => a ≤ b) (encryptProgressCalls [3, 4, 5]) ∧
      encryptProgressCalls [3, 4, 5] = streamCalls (encFileSize [3, 4, 5]) 0 [3, 4, 5] ++ [1] ∧
      (∀ q ∈ streamCalls (encFileSize [3, 4, 5]) 0 [3, 4, 5], 0 ≤ q ∧ q ≤ 95 / 100) ∧
      (encryptProgressCalls [3, 4, 5]).getLast? = some 1 :=
  encrypt_file_progress_spec [3, 4, 5] (by simp)

/-! ## Time-locked password tokens (`generate_time_locked_password` /
`validate_time_locked_password` in `core/crypto.py`)

Token strings are byte lists; `46` is the `"."` separator.  The JSON codec,
the base64url codec and `hmac.new(_HMAC_KEY, ., sha256)` are abstract
parameters, constrained at the specific values involved. -/

/-- Python `token.split(".")`, on byte lists. -/
def splitOnDot : Bytes → List Bytes
  | [] => [[]]
  | b :: rest =>
    if b = 46 then [] :: splitOnDot rest
    else
      match splitOnDot rest with
      | [] => [[b]]
      | h :: t => (b :: h) :: t

theorem splitOnDot_ne_nil (l : Bytes) : splitOnDot l ≠ [] := by
  induction l with
  | nil => simp [splitOnDot]
  | cons b rest ih =>
    unfold splitOnDot
    by_cases hb : b = 46
    · simp [hb]
    · rw [if_neg hb]
      match h : splitOnDot rest with
      | [] => simp
      | hd :: tl => simp

theorem splitOnDot_no_dot (l : Bytes) (h : ∀ b ∈ l, b ≠ 46) : splitOnDot l = [l] := by
  induction l with
  | nil => rfl
  | cons b rest ih =>
    have hb : b ≠ 46 := h b (List.mem_cons_self b rest)
    have hrest : splitOnDot rest = [rest] := ih (fun x hx => h x (List.mem_cons_of_mem b hx))
    unfold splitOnDot
    rw [if_neg hb, hrest]

theorem splitOnDot_append (a b : Bytes) (ha : ∀ x ∈ a, x ≠ 46) :
    splitOnDot (a ++ 46 :: b) = a :: splitOnDot b := by
  induction a with
  | nil =>
    simp [splitOnDot]
  | cons x rest ih =>
    have hx : x ≠ 46 := ha x (List.mem_cons_self x rest)
    have hr := ih (fun y hy => ha y (List.mem_cons_of_mem x hy))
    simp only [List.cons_append, splitOnDot]
    rw [if_neg hx]
    rw [List.append_eq, hr]

/-- `generate_time_locked_password`: `expiry = now + duration`, payload
`{"p": pwd, "e": expiry}` JSON-encoded then base64url-encoded, signature
`HMAC-SHA256(key, b64payload)` base64url-encoded, token
`b64payload ++ "." ++ b64sig`.  Returns `(token, expiry)`. -/
def generate_time_locked_password (jsonEnc : String → Nat → Bytes)
    (b64enc : Bytes → Bytes) (mac : Bytes → Bytes)
    (now : Nat) (basePassword : String) (durationSecs : Nat) : Bytes × Nat :=
  let expiry := now + durationSecs
  let b64payload := b64enc (jsonEnc basePassword expiry)
  (b64payload ++ 46 :: b64enc (mac b64payload), expiry)

/-- `validate_time_locked_password`: split on `"."` (exactly two parts or
"Malformed token."), base64-decode and constant-time-compare the signature
against the recomputed MAC ("Signature mismatch – token tampered." on
mismatch), decode the payload, reject when `now` is past the expiry
("Token expired."), otherwise return the embedded password.  Exceptions
raised by the decoders surface as generic failures via the `except` arm,
modelled by fixed placeholder messages. -/
def validate_time_locked_password (jsonDec : Bytes → Option (String × Nat))
    (b64dec : Bytes → Option Bytes) (mac : Bytes → Bytes)
    (now : Nat) (token : Bytes) : Bool × Option String × Option String :=
  match splitOnDot token with
  | [b64payload, b64sig] =>
    match b64dec b64sig with
    | none => (false, none, some "Invalid base64 signature.")
    | some provided =>
      if mac b64payload ≠ provided then
        (false, none, some "Signature mismatch – token tampered.")
      else
        match b64dec b64payload with
        | none => (false, none, some "Invalid base64 payload.")
        | some payloadBytes =>
          match jsonDec payloadBytes with
          | none => (false, none, some "Invalid JSON payload.")
          | some pe =>
            if pe.2 < now then (false, none, some "Token expired.")
            else (true, some pe.1, none)
  | _ => (false, none, some "Malformed token.")

/-- C6: a freshly generated token validates before its expiry and returns the
base password; validating after the expiry fails as expired; replacing the
signature part by any string whose decoding differs from the recomputed MAC
fails as tampered; and any token that does not split into exactly two
dot-separated parts fails as malformed.  The codec hypotheses are the base64/
JSON round-trip facts at the values involved, plus the fact that base64url
output never contains the `"."` byte. -/
theorem time_locked_password_spec
    (jsonEnc : String → Nat → Bytes) (jsonDec : Bytes → Option (String × Nat))
    (b64enc : Bytes → Bytes) (b64dec : Bytes → Option Bytes) (mac : Bytes → Bytes)
    (pwd : String) (d now now2 now3 : Nat) (sigMut s2 tok : Bytes)
    (hpNoDot : ∀ b ∈ b64enc (jsonEnc pwd (now + d)), b ≠ 46)
    (hsNoDot : ∀ b ∈ b64enc (mac (b64enc (jsonEnc pwd (now + d)))), b ≠ 46)
    (hpDec : b64dec (b64enc (jsonEnc pwd (now + d))) = some (jsonEnc pwd (now + d)))
    (hsDec : b64dec (b64enc (mac (b64enc (jsonEnc pwd (now + d))))) =
      some (mac (b64enc (jsonEnc pwd (now + d)))))
    (hjson : jsonDec (jsonEnc pwd (now + d)) = some (pwd, now + d))
    (hnow2 : now2 ≤ now + d) (hnow3 : now + d < now3)
    (hmutNoDot : ∀ b ∈ sigMut, b ≠ 46)
    (hmutDec : b64dec sigMut = some s2)
    (hmutNe : s2 ≠ mac (b64enc (jsonEnc pwd (now + d))))
    (htok : (splitOnDot tok).length ≠ 2) :
    validate_time_locked_password jsonDec b64dec mac now2
        (generate_time_locked_password jsonEnc b64enc mac now pwd d).1 =
      (true, some pwd, none) ∧
    validate_time_locked_password jsonDec b64dec mac now3
        (generate_time_locked_password jsonEnc b64enc mac now pwd d).1 =
      (false, none, some "Token expired.") ∧
    validate_time_locked_password jsonDec b64dec mac now2
        (b64enc (jsonEnc pwd (now + d)) ++ 46 :: sigMut) =
      (false, none, some "Signature mismatch – token tampered.") ∧
    validate_time_locked_password jsonDec b64dec mac now2 tok =
      (false, none, some "Malformed token.") ∧
    (generate_time_locked_password jsonEnc b64enc mac now pwd d).2 = now + d := by
  have htoksplit : splitOnDot (generate_time_locked_password jsonEnc b64enc mac now pwd d).1 =
      [b64enc (jsonEnc pwd (now + d)), b64enc (mac (b64enc (jsonEnc pwd (now + d))))] := by
    unfold generate_time_locked_password
    rw [splitOnDot_append _ _ hpNoDot, splitOnDot_no_dot _ hsNoDot]
  have hmutsplit : splitOnDot (b64enc (jsonEnc pwd (now + d)) ++ 46 :: sigMut) =
      [b64enc (jsonEnc pwd (now + d)), sigMut] := by
    rw [splitOnDot_append _ _ hpNoDot, splitOnDot_no_dot sigMut hmutNoDot]
  refine ⟨?_, ?_, ?_, ?_, rfl⟩
  · unfold validate_time_locked_password
    rw [htoksplit]
    dsimp only
    rw [hsDec]
    dsimp only
    rw [if_neg (by simp), hpDec]
    dsimp only
    rw [hjson]
    dsimp only
    rw [if_neg (by omega)]
  · unfold validate_time_locked_password
    rw [htoksplit]
    dsimp only
    rw [hsDec]
    dsimp only
    rw [if_neg (by simp), hpDec]
    dsimp only
    rw [hjson]
    dsimp only
    rw [if_pos hnow3]
  · unfold validate_time_locked_password
    rw [hmutsplit]
    dsimp only
    rw [hmutDec]
    dsimp only
    rw [if_pos (Ne.symm hmutNe)]
  · unfold validate_time_locked_password
    cases hsplit : splitOnDot tok with
    | nil => rfl
    | cons a rest =>
      cases rest with
      | nil => rfl
      | cons b rest2 =>
        cases rest2 with
        | nil => exact absurd (by simp [hsplit]) htok
        | cons c rest3 => rfl

/-- Witness for C6 with concrete trivial codecs satisfying the round-trip
hypotheses at the values involved. -/
theorem time_locked_password_spec_witness :
    validate_time_locked_password
        (fun l => if l = [0] then some ("pw", 60) else none)
        (fun l => some l.dropLast) (fun _ => [1]) 0
        (generate_time_locked_password (fun _ _ => [0])
          (fun l => l ++ [99]) (fun _ => [1]) 0 "pw" 60).1 =
      (true, some "pw", none) :=
  (time_locked_password_spec (fun _ _ => [0])
    (fun l => if l = [0] then some ("pw", 60) else none)
    (fun l => l ++ [99]) (fun l => some l.dropLast) (fun _ => [1])
    "pw" 60 0 0 61 [2] [2].dropLast []
    (by decide) (by decide) (by decide) (by decide) (by decide)
    (by omega) (by omega) (by decide) (by decide) (by decide) (by decide)).1

/-! ## The credential vault (`UserManager` in `core/user_manager.py`)

Python dicts keyed by strings are modelled as functions `String → Option β`;
`dset`/`ddel` are item assignment and `del`.  `time.time()` is the explicit
`now`; `MAX_LOGIN_ATTEMPTS = 3` and `LOCKOUT_SECS = 120` come from
`core/config.py`. -/

def dset {β : Type} (f : String → Option β) (k : String) (v : β) : String → Option β :=
  fun x => if x = k then some v else f x

def ddel {β : Type} (f : String → Option β) (k : String) : String → Option β :=
  fun x => if x = k then none else f x

structure UserRec where
  password_hash : Bytes
  last_login : Option Nat

structure AuthState where
  users : String → Option UserRec
  login_attempts : String → Option Nat
  lockout_until : String → Option Nat

/-- The body of `UserManager.authenticate` after the lockout check:
unknown user → generic failure; correct password → reset attempt counter,
record last login; wrong password → increment the counter, and on reaching
3 attempts set a 120-second lockout. -/
def authenticateCore (dk : String → Bytes → Bytes) (now : Nat) (st : AuthState)
    (username password : String) : (Bool × String) × AuthState :=
  match st.users username with
  | none => ((false, "Invalid username or password."), st)
  | some r =>
    if verify_password dk password r.password_hash then
      ((true, "Login successful."),
        { st with login_attempts := dset st.login_attempts username 0,
                  users := dset st.users username { r with last_login := some now } })
    else
      let a := (st.login_attempts username).getD 0 + 1
      if 3 ≤ a then
        ((false, "Too many failed attempts. Locked for 120s."),
          { st with login_attempts := dset st.login_attempts username a,
                    lockout_until := dset st.lockout_until username (now + 120) })
      else
        ((false, "Invalid credentials. " ++ toString (3 - a) ++ " attempt(s) left."),
          { st with login_attempts := dset st.login_attempts username a })

/-- `UserManager.authenticate`: if a lockout is on file and still active,
report the remaining seconds without touching anything (and without checking
the password); if it has expired, delete it and zero the attempt counter
before evaluating normally. -/
def authenticate (dk : String → Bytes → Bytes) (now : Nat) (st : AuthState)
    (username password : String) : (Bool × String) × AuthState :=
  match st.lockout_until username with
  | some t =>
    if now < t then
      ((false, "Account locked. Try again in " ++ toString (t - now) ++ "s."), st)
    else
      authenticateCore dk now
        { st with lockout_until := ddel st.lockout_until username,
                  login_attempts := dset st.login_attempts username 0 }
        username password
  | none => authenticateCore dk now st username password

/-- C10: for a username absent from the vault and from the lockout map, the
call returns the generic failure and the whole state — in particular the
attempt counters and lockout map — is returned unchanged. -/
theorem authenticate_unknown_username_frame
    (dk : String → Bytes → Bytes) (now : Nat) (st : AuthState) (u p : String)
    (hu : st.users u = none) (hl : st.lockout_until u = none) :
    authenticate dk now st u p = ((false, "Invalid username or password."), st) ∧
      (authenticate dk now st u p).2.login_attempts = st.login_attempts ∧
      (authenticate dk now st u p).2.lockout_until = st.lockout_until := by
  have h : authenticate dk now st u p = ((false, "Invalid username or password."), st) := by
    unfold authenticate
    rw [hl]
    unfold authenticateCore
    rw [hu]
  exact ⟨h, by rw [h], by rw [h]⟩

/-- Witness for C10 with a concrete state holding a different user. -/
theorem authenticate_unknown_username_frame_witness :
    authenticate (fun _ _ => []) 5
        ⟨fun x => if x = "bob" then some ⟨[1], none⟩ else none, fun _ => none, fun _ => none⟩
        "alice" "pw" =
      ((false, "Invalid username or password."),
        ⟨fun x => if x = "bob" then some ⟨[1], none⟩ else none, fun _ => none, fun _ => none⟩) ∧
      (authenticate (fun _ _ => []) 5
        ⟨fun x => if x = "bob" then some ⟨[1], none⟩ else none, fun _ => none, fun _ => none⟩
        "alice" "pw").2.login_attempts = (fun _ => none) ∧
      (authenticate (fun _ _ => []) 5
        ⟨fun x => if x = "bob" then some ⟨[1], none⟩ else none, fun _ => none, fun _ => none⟩
        "alice" "pw").2.lockout_until = (fun _ => none) :=
  authenticate_unknown_username_frame (fun _ _ => []) 5
    ⟨fun x => if x = "bob" then some ⟨[1], none⟩ else none, fun _ => none, fun _ => none⟩
    "alice" "pw" (by simp) rfl

/-- C3: starting from a vaulted user with no failed attempts and no lockout,
three consecutive wrong-password calls lock the account for 120 seconds from
the third call; while the lockout is active any call — even with the correct
password — only reports the remaining seconds and changes nothing; a call
after the window first resets the attempt counter and is evaluated normally,
so the correct password then succeeds (and resets the counter), and a wrong
password merely counts as the first new failure; independently, a successful
login after two failures (no lockout involved) resets the counter to zero. -/
theorem authenticate_lockout_spec
    (dk : String → Bytes → Bytes) (st0 : AuthState) (u p1 p2 p3 p4 pg : String)
    (r : UserRec) (t1 t2 t3 n4 n5 : Nat)
    (hu : st0.users u = some r)
    (hl : st0.lockout_until u = none)
    (ha : st0.login_attempts u = none)
    (hw1 : verify_password dk p1 r.password_hash = false)
    (hw2 : verify_password dk p2 r.password_hash = false)
    (hw3 : verify_password dk p3 r.password_hash = false)
    (hw4 : verify_password dk p4 r.password_hash = false)
    (hg : verify_password dk pg r.password_hash = true)
    (h4 : n4 < t3 + 120) (h5 : ¬ n5 < t3 + 120) :
    (authenticate dk t3 (authenticate dk t2 (authenticate dk t1 st0 u p1).2 u p2).2 u p3).1 =
      (false, "Too many failed attempts. Locked for 120s.") ∧
    (authenticate dk t3 (authenticate dk t2 (authenticate dk t1 st0 u p1).2 u p2).2
        u p3).2.lockout_until u = some (t3 + 120) ∧
    authenticate dk n4
        (authenticate dk t3 (authenticate dk t2 (authenticate dk t1 st0 u p1).2 u p2).2 u p3).2
        u pg =
      ((false, "Account locked. Try again in " ++ toString (t3 + 120 - n4) ++ "s."),
        (authenticate dk t3 (authenticate dk t2 (authenticate dk t1 st0 u p1).2 u p2).2
          u p3).2) ∧
    (authenticate dk n5
        (authenticate dk t3 (authenticate dk t2 (authenticate dk t1 st0 u p1).2 u p2).2 u p3).2
        u pg).1 = (true, "Login successful.") ∧
    (authenticate dk n5
        (authenticate dk t3 (authenticate dk t2 (authenticate dk t1 st0 u p1).2 u p2).2 u p3).2
        u pg).2.login_attempts u = some 0 ∧
    (authenticate dk n5
        (authenticate dk t3 (authenticate dk t2 (authenticate dk t1 st0 u p1).2 u p2).2 u p3).2
        u p4).1.1 = false ∧
    (authenticate dk n5
        (authenticate dk t3 (authenticate dk t2 (authenticate dk t1 st0 u p1).2 u p2).2 u p3).2
        u p4).2.login_attempts u = some 1 ∧
    (authenticate dk t3 (authenticate dk t2 (authenticate dk t1 st0 u p1).2 u p2).2 u pg).1 =
      (true, "Login successful.") ∧
    (authenticate dk t3 (authenticate dk t2 (authenticate dk t1 st0 u p1).2 u p2).2
        u pg).2.login_attempts u = some 0 := by
  have c1 : (authenticate dk t1 st0 u p1).2 =
      ⟨st0.users, dset st0.login_attempts u 1, st0.lockout_until⟩ := by
    simp [authenticate, authenticateCore, hl, hu, hw1, ha]
  rw [c1]
  have c2 : (authenticate dk t2
      (⟨st0.users, dset st0.login_attempts u 1, st0.lockout_until⟩ : AuthState) u p2).2 =
      ⟨st0.users, dset (dset st0.login_attempts u 1) u 2, st0.lockout_until⟩ := by
    simp [authenticate, authenticateCore, hl, hu, hw2, dset]
  rw [c2]
  have c3 : authenticate dk t3
      (⟨st0.users, dset (dset st0.login_attempts u 1) u 2, st0.lockout_until⟩ : AuthState)
      u p3 =
      ((false, "Too many failed attempts. Locked for 120s."),
        ⟨st0.users, dset (dset (dset st0.login_attempts u 1) u 2) u 3,
          dset st0.lockout_until u (t3 + 120)⟩) := by
    simp [authenticate, authenticateCore, hl, hu, hw3, dset]
  rw [c3]
  refine ⟨rfl, by simp [dset], ?_, ?_, ?_, ?_, ?_, ?_, ?_⟩
  · simp [authenticate, dset, h4]
  · simp [authenticate, authenticateCore, dset, ddel, h5, hu, hg]
  · simp [authenticate, authenticateCore, dset, ddel, h5, hu, hg]
  · simp [authenticate, authenticateCore, dset, ddel, h5, hu, hw4]
  · simp [authenticate, authenticateCore, dset, ddel, h5, hu, hw4]
  · simp [authenticate, authenticateCore, dset, hl, hu, hg]
  · simp [authenticate, authenticateCore, dset, hl, hu, hg]

/-- Witness for C3: a concrete vault, key-derivation function and timeline;
the third wrong password locks the account. -/
theorem authenticate_lockout_spec_witness :
    (authenticate (fun p _ => if p = "good" then [9] else []) 1000
      (authenticate (fun p _ => if p = "good" then [9] else []) 1000
        (authenticate (fun p _ => if p = "good" then [9] else []) 1000
          ⟨fun x => if x = "alice" then some ⟨List.replicate 16 0 ++ [9], none⟩ else none,
            fun _ => none, fun _ => none⟩
          "alice" "bad").2 "alice" "bad").2 "alice" "bad").1 =
      (false, "Too many failed attempts. Locked for 120s.") :=
  (authenticate_lockout_spec (fun p _ => if p = "good" then [9] else [])
    ⟨fun x => if x = "alice" then some ⟨List.replicate 16 0 ++ [9], none⟩ else none,
      fun _ => none, fun _ => none⟩
    "alice" "bad" "bad" "bad" "bad" "good" ⟨List.replicate 16 0 ++ [9], none⟩
    1000 1000 1000 1050 1120
    (by simp) rfl rfl (by decide) (by decide) (by decide) (by decide) (by decide)
    (by decide) (by decide)).1

/-! ## OTP verification (`UserManager.verify_otp` in `core/user_manager.py`)

`OTP_VALIDITY_SECS = 300` fixes the expiry stored by `generate_otp`; here the
expiry timestamp is carried in the pending record. -/

/-- Python's default `str.strip()`: drop leading and trailing whitespace
(structural, so that it evaluates in the kernel). -/
def isSpaceChar (c : Char) : Bool := c = ' ' ∨ c = '\t' ∨ c = '\n' ∨ c = '\r'

def pyStrip (s : String) : String :=
  ⟨((s.data.dropWhile isSpaceChar).reverse.dropWhile isSpaceChar).reverse⟩

structure OtpRec where
  otp : String
  expiry : Nat
  purpose : String
  username : String
  attempts : Nat

/-- `UserManager.verify_otp`: no pending record → failure; expired → failure
and the record is deleted; otherwise the attempt counter is incremented
first (mutating the stored record), more than 3 attempts → record deleted
and failure; wrong code → failure keeping the (incremented) record; match →
success keeping the record for the caller to read purpose/username. -/
def verify_otp (now : Nat) (pending : String → Option OtpRec) (mobile otpEntered : String) :
    (Bool × String) × (String → Option OtpRec) :=
  match pending mobile with
  | none => ((false, "No pending OTP. Request a new one."), pending)
  | some r =>
    if r.expiry < now then
      ((false, "OTP expired. Request a new one."), ddel pending mobile)
    else
      let r1 : OtpRec := { r with attempts := r.attempts + 1 }
      if 3 < r1.attempts then
        ((false, "Too many wrong attempts. Request a new OTP."), ddel pending mobile)
      else if pyStrip otpEntered ≠ r.otp then
        ((false, "Incorrect OTP."), dset pending mobile r1)
      else
        ((true, "OTP verified."), dset pending mobile r1)

/-- C4: (i) no pending record is a failure; (ii) an expired record is a
failure and is discarded; (iii) once three attempts have been used, the next
submission is discarded-and-refused even when the submitted code matches;
(iv) a mismatch within the cap fails but keeps the (incremented) record;
(v) a match within the cap succeeds and keeps the record; and, sequentially,
a fresh code given three wrong guesses and then the correct one on the 4th
submission still fails and invalidates the pending record. -/
theorem verify_otp_spec
    (now nowE : Nat) (pend : String → Option OtpRec)
    (m0 m1 m2 m3 m4 m5 : String) (e2 w3 g4 w5 g5 : String)
    (r1 r2 r3 r4 r5 : OtpRec)
    (h0 : pend m0 = none)
    (h1 : pend m1 = some r1) (h1e : r1.expiry < nowE)
    (h2 : pend m2 = some r2) (h2e : ¬ r2.expiry < now) (h2a : 3 ≤ r2.attempts)
    (h2g : pyStrip e2 = r2.otp)
    (h3 : pend m3 = some r3) (h3e : ¬ r3.expiry < now) (h3a : r3.attempts < 3)
    (h3w : pyStrip w3 ≠ r3.otp)
    (h4 : pend m4 = some r4) (h4e : ¬ r4.expiry < now) (h4a : r4.attempts < 3)
    (h4g : pyStrip g4 = r4.otp)
    (h5 : pend m5 = some r5) (h5e : ¬ r5.expiry < now) (h5a : r5.attempts = 0)
    (h5w : pyStrip w5 ≠ r5.otp) (h5g : pyStrip g5 = r5.otp) :
    verify_otp now pend m0 w3 = ((false, "No pending OTP. Request a new one."), pend) ∧
    verify_otp nowE pend m1 e2 =
      ((false, "OTP expired. Request a new one."), ddel pend m1) ∧
    verify_otp now pend m2 e2 =
      ((false, "Too many wrong attempts. Request a new OTP."), ddel pend m2) ∧
    verify_otp now pend m3 w3 =
      ((false, "Incorrect OTP."), dset pend m3 { r3 with attempts := r3.attempts + 1 }) ∧
    verify_otp now pend m4 g4 =
      ((true, "OTP verified."), dset pend m4 { r4 with attempts := r4.attempts + 1 }) ∧
    (verify_otp now
      (verify_otp now
        (verify_otp now
          (verify_otp now pend m5 w5).2 m5 w5).2 m5 w5).2 m5 g5).1 =
      (false, "Too many wrong attempts. Request a new OTP.") ∧
    (verify_otp now
      (verify_otp now
        (verify_otp now
          (verify_otp now pend m5 w5).2 m5 w5).2 m5 w5).2 m5 g5).2 m5 = none := by
  have part0 : verify_otp now pend m0 w3 =
      ((false, "No pending OTP. Request a new one."), pend) := by
    simp [verify_otp, h0]
  have part1 : verify_otp nowE pend m1 e2 =
      ((false, "OTP expired. Request a new one."), ddel pend m1) := by
    simp [verify_otp, h1, h1e]
  have part2 : verify_otp now pend m2 e2 =
      ((false, "Too many wrong attempts. Request a new OTP."), ddel pend m2) := by
    have : 3 < r2.attempts + 1 := by omega
    simp [verify_otp, h2, h2e, this]
  have part3 : verify_otp now pend m3 w3 =
      ((false, "Incorrect OTP."), dset pend m3 { r3 with attempts := r3.attempts + 1 }) := by
    have : ¬ 3 < r3.attempts + 1 := by omega
    simp [verify_otp, h3, h3e, this, h3w]
  have part4 : verify_otp now pend m4 g4 =
      ((true, "OTP verified."), dset pend m4 { r4 with attempts := r4.attempts + 1 }) := by
    have : ¬ 3 < r4.attempts + 1 := by omega
    simp [verify_otp, h4, h4e, this, h4g]
  refine ⟨part0, part1, part2, part3, part4, ?_, ?_⟩ <;>
  · have s1 : (verify_otp now pend m5 w5).2 =
        dset pend m5 { r5 with attempts := r5.attempts + 1 } := by
      have : ¬ 3 < r5.attempts + 1 := by omega
      simp [verify_otp, h5, h5e, this, h5w]
    rw [s1]
    have s2 : (verify_otp now (dset pend m5 { r5 with attempts := r5.attempts + 1 })
        m5 w5).2 =
        dset (dset pend m5 { r5 with attempts := r5.attempts + 1 }) m5
          { r5 with attempts := r5.attempts + 2 } := by
      have hc : ¬ 3 < r5.attempts + 2 := by omega
      simp [verify_otp, dset, h5e, hc, h5w]
    rw [s2]
    have s3 : (verify_otp now (dset (dset pend m5 { r5 with attempts := r5.attempts + 1 })
        m5 { r5 with attempts := r5.attempts + 2 }) m5 w5).2 =
        dset (dset (dset pend m5 { r5 with attempts := r5.attempts + 1 }) m5
          { r5 with attempts := r5.attempts + 2 }) m5
          { r5 with attempts := r5.attempts + 3 } := by
      have hc : ¬ 3 < r5.attempts + 3 := by omega
      simp [verify_otp, dset, h5e, hc, h5w]
    rw [s3]
    have hc4 : 3 < r5.attempts + 3 + 1 := by omega
    simp [verify_otp, dset, ddel, h5e, hc4, h5a]

/-- Witness for C4: with a fresh 6-digit code, three wrong guesses followed by
the correct code on the fourth submission still fail. -/
theorem verify_otp_spec_witness :
    (verify_otp 100
      (verify_otp 100
        (verify_otp 100
          (verify_otp 100
            (fun x =>
              if x = "m1" then some ⟨"111111", 10, "register", "", 0⟩
              else if x = "m2" then some ⟨"222222", 1000, "register", "", 3⟩
              else if x = "m3" then some ⟨"333333", 1000, "register", "", 0⟩
              else if x = "m4" then some ⟨"444444", 1000, "register", "", 0⟩
              else if x = "m5" then some ⟨"555555", 1000, "register", "", 0⟩
              else none)
            "m5" "000000").2 "m5" "000000").2 "m5" "000000").2
      "m5" "555555").1 =
      (false, "Too many wrong attempts. Request a new OTP.") :=
  (verify_otp_spec 100 100
    (fun x =>
      if x = "m1" then some ⟨"111111", 10, "register", "", 0⟩
      else if x = "m2" then some ⟨"222222", 1000, "register", "", 3⟩
      else if x = "m3" then some ⟨"333333", 1000, "register", "", 0⟩
      else if x = "m4" then some ⟨"444444", 1000, "register", "", 0⟩
      else if x = "m5" then some ⟨"555555", 1000, "register", "", 0⟩
      else none)
    "m0" "m1" "m2" "m3" "m4" "m5" "222222" "000000" "444444" "000000" "555555"
    ⟨"111111", 10, "register", "", 0⟩ ⟨"222222", 1000, "register", "", 3⟩
    ⟨"333333", 1000, "register", "", 0⟩ ⟨"444444", 1000, "register", "", 0⟩
    ⟨"555555", 1000, "register", "", 0⟩
    (by simp) (by simp) (by decide) (by simp) (by decide) (by decide) (by decide)
    (by simp) (by decide) (by decide) (by decide)
    (by simp) (by decide) (by decide) (by decide)
    (by simp) (by decide) (by decide) (by decide) (by decide)).2.2.2.2.2.1

/-! ## The audit log (`HistoryManager` in `core/history.py`)

An entry is its content (`Data`, the dict without `"_hash"`) plus the stored
chain hash.  `mac d prev` abstracts
`hmac.new(chain_key, json({entry: d, prev: prev}), sha256).hexdigest()`.
`MAX_ENTRIES = 200`. -/

structure Entry (Data : Type) where
  data : Data
  hash : String

/-- `self.entries[-1]["_hash"] if self.entries else "GENESIS"` (with the
default abstracted as `dflt` so the chain lemmas can recurse). -/
def prevHash {Data : Type} (dflt : String) (entries : List (Entry Data)) : String :=
  match entries.getLast? with
  | some e => e.hash
  | none => dflt

/-- `HistoryManager._rechain`: recompute every hash from `prev` forward. -/
def rechain {Data : Type} (mac : Data → String → String) :
    String → List (Entry Data) → List (Entry Data)
  | _, [] => []
  | prev, e :: rest => ⟨e.data, mac e.data prev⟩ :: rechain mac (mac e.data prev) rest

/-- `HistoryManager.add`: hash the new entry against the last stored hash (or
`"GENESIS"`), append, and if the cap of 200 is exceeded keep the most recent
200 entries (`entries[-MAX_ENTRIES:]`) and rechain them from `"GENESIS"`. -/
def addEntry {Data : Type} (mac : Data -> String -> String)
    (entries : List (Entry Data)) (d : Data) : List (Entry Data) :=
  if 200 < (entries ++ [(⟨d, mac d (prevHash "GENESIS" entries)⟩ : Entry Data)]).length then
    rechain mac "GENESIS"
      ((entries ++ [(⟨d, mac d (prevHash "GENESIS" entries)⟩ : Entry Data)]).drop
        ((entries ++ [(⟨d, mac d (prevHash "GENESIS" entries)⟩ : Entry Data)]).length - 200))
  else entries ++ [(⟨d, mac d (prevHash "GENESIS" entries)⟩ : Entry Data)]

/-- The walk of `HistoryManager.verify_chain`: index of the first entry whose
stored hash differs from the recomputed one, `none` if the chain is intact. -/
def verifyChainAux {Data : Type} (mac : Data -> String -> String) :
    String -> Nat -> List (Entry Data) -> Option Nat
  | _, _, [] => none
  | prev, i, e :: rest =>
    if e.hash ≠ mac e.data prev then some i
    else verifyChainAux mac e.hash (i + 1) rest

/-- `HistoryManager.verify_chain`: `(intact, report)`. -/
def verify_chain {Data : Type} (mac : Data -> String -> String)
    (entries : List (Entry Data)) : Bool × String :=
  match verifyChainAux mac "GENESIS" 0 entries with
  | some i => (false, "Chain broken at entry #" ++ toString i)
  | none => (true, "Chain intact – " ++ toString entries.length ++ " entries verified.")

/-- A sequence of `add` calls starting from the empty log. -/
def buildLog {Data : Type} (mac : Data -> String -> String) (ds : List Data) :
    List (Entry Data) :=
  ds.foldl (addEntry mac) []

theorem verifyChainAux_rechain {Data : Type} (mac : Data -> String -> String) :
    ∀ (es : List (Entry Data)) (prev : String) (i : Nat),
      verifyChainAux mac prev i (rechain mac prev es) = none := by
  intro es
  induction es with
  | nil => intro prev i; rfl
  | cons e rest ih =>
    intro prev i
    simp only [rechain, verifyChainAux]
    rw [if_neg (by simp)]
    exact ih (mac e.data prev) (i + 1)

theorem rechain_map_data {Data : Type} (mac : Data -> String -> String) :
    ∀ (es : List (Entry Data)) (prev : String),
      (rechain mac prev es).map (fun e => e.data) = es.map (fun e => e.data) := by
  intro es
  induction es with
  | nil => intro prev; rfl
  | cons e rest ih =>
    intro prev
    simp only [rechain, List.map_cons]
    rw [ih (mac e.data prev)]

theorem rechain_length {Data : Type} (mac : Data -> String -> String) :
    ∀ (es : List (Entry Data)) (prev : String),
      (rechain mac prev es).length = es.length := by
  intro es
  induction es with
  | nil => intro prev; rfl
  | cons e rest ih =>
    intro prev
    simp only [rechain, List.length_cons]
    rw [ih (mac e.data prev)]

theorem prevHash_cons {Data : Type} (dflt : String) (e : Entry Data)
    (rest : List (Entry Data)) : prevHash dflt (e :: rest) = prevHash e.hash rest := by
  cases rest with
  | nil => rfl
  | cons x xs =>
    have hgl : (x :: xs).getLast? = some ((x :: xs).getLast (List.cons_ne_nil x xs)) :=
      List.getLast?_eq_getLast _ (List.cons_ne_nil x xs)
    simp [prevHash, List.getLast?_cons_cons, hgl]

theorem verifyChainAux_append_valid {Data : Type} (mac : Data -> String -> String) :
    ∀ (es : List (Entry Data)) (prev : String) (i : Nat) (d : Data),
      verifyChainAux mac prev i es = none →
      verifyChainAux mac prev i (es ++ [⟨d, mac d (prevHash prev es)⟩]) = none := by
  intro es
  induction es with
  | nil =>
    intro prev i d _
    simp only [List.nil_append, verifyChainAux, prevHash]
    rw [if_neg (by simp)]
  | cons e rest ih =>
    intro prev i d hv
    rcases eq_or_ne e.hash (mac e.data prev) with hok | hne
    · have htail : verifyChainAux mac e.hash (i + 1) rest = none := by
        simpa [verifyChainAux, hok] using hv
      have happ := ih e.hash (i + 1) d htail
      simpa [verifyChainAux, hok, prevHash_cons] using happ
    · exfalso
      simp [verifyChainAux, hne] at hv

theorem buildLog_invariant {Data : Type} (mac : Data -> String -> String) (ds : List Data) :
    verifyChainAux mac "GENESIS" 0 (buildLog mac ds) = none ∧
      (buildLog mac ds).map (fun e => e.data) = ds.drop (ds.length - 200) ∧
      (buildLog mac ds).length = min ds.length 200 := by
  induction ds using List.reverseRecOn with
  | nil =>
    refine ⟨rfl, ?_, ?_⟩ <;> simp [buildLog]
  | append_singleton ds d ih =>
    obtain ⟨hv, hm, hl⟩ := ih
    have hbuild : buildLog mac (ds ++ [d]) = addEntry mac (buildLog mac ds) d := by
      unfold buildLog
      rw [List.foldl_append]
      simp only [List.foldl_cons, List.foldl_nil]
    by_cases hlen : (buildLog mac ds).length + 1 ≤ 200
    · have hcond : ¬ 200 < (buildLog mac ds ++
          [(⟨d, mac d (prevHash "GENESIS" (buildLog mac ds))⟩ : Entry Data)]).length := by
        simp only [List.length_append, List.length_cons, List.length_nil]
        omega
      have hadd : buildLog mac (ds ++ [d]) = buildLog mac ds ++
          [(⟨d, mac d (prevHash "GENESIS" (buildLog mac ds))⟩ : Entry Data)] := by
        rw [hbuild]
        unfold addEntry
        rw [if_neg hcond]
      have hsmall : ds.length ≤ 199 := by omega
      refine ⟨?_, ?_, ?_⟩
      · rw [hadd]
        exact verifyChainAux_append_valid mac (buildLog mac ds) "GENESIS" 0 d hv
      · rw [hadd, List.map_append, hm]
        simp only [List.map_cons, List.map_nil]
        have h0 : ds.length - 200 = 0 := by omega
        have h1 : (ds ++ [d]).length - 200 = 0 := by
          simp only [List.length_append, List.length_cons, List.length_nil]
          omega
        rw [h0, h1, List.drop_zero, List.drop_zero]
      · rw [hadd]
        simp only [List.length_append, List.length_cons, List.length_nil, hl]
        omega
    · have hLfull : (buildLog mac ds).length = 200 := by omega
      have hbig : 200 ≤ ds.length := by omega
      have hlen201 : (buildLog mac ds ++
          [(⟨d, mac d (prevHash "GENESIS" (buildLog mac ds))⟩ : Entry Data)]).length = 201 := by
        simp only [List.length_append, List.length_cons, List.length_nil]
        omega
      have hcond : 200 < (buildLog mac ds ++
          [(⟨d, mac d (prevHash "GENESIS" (buildLog mac ds))⟩ : Entry Data)]).length := by
        rw [hlen201]
        omega
      have hadd : buildLog mac (ds ++ [d]) = rechain mac "GENESIS"
          ((buildLog mac ds ++
            [(⟨d, mac d (prevHash "GENESIS" (buildLog mac ds))⟩ : Entry Data)]).drop 1) := by
        rw [hbuild]
        unfold addEntry
        rw [if_pos hcond, hlen201]
      refine ⟨?_, ?_, ?_⟩
      · rw [hadd]
        exact verifyChainAux_rechain mac _ "GENESIS" 0
      · rw [hadd, rechain_map_data, List.map_drop, List.map_append, hm]
        simp only [List.map_cons, List.map_nil]
        rw [List.drop_append_eq_append_drop, List.drop_append_eq_append_drop]
        have hA : (ds.drop (ds.length - 200)).length = 200 := by
          simp only [List.length_drop]
          omega
        rw [hA, List.drop_drop]
        have hB : (ds ++ [d]).length - 200 = ds.length - 199 := by
          simp only [List.length_append, List.length_cons, List.length_nil]
          omega
        have hC : ds.length - 200 + 1 = ds.length - 199 := by omega
        rw [hB, hC]
        have hD : ds.length - 199 - ds.length = 0 := by omega
        rw [hD]
      · rw [hadd, rechain_length]
        simp only [List.length_drop, hlen201, List.length_append, List.length_cons,
          List.length_nil]
        omega

/-- C5: building the log by successive `add` calls from empty, any log of at
most 200 entries verifies as intact with all appended data present in order;
the 201st `add` drops the oldest entry, leaves exactly the 200 most recent,
and the rechained result still verifies as intact. -/
theorem history_chain_spec {Data : Type} (mac : Data → String → String)
    (ds1 ds2 : List Data) (h1 : ds1.length ≤ 200) (h2 : ds2.length = 201) :
    (verify_chain mac (buildLog mac ds1)).1 = true ∧
      (buildLog mac ds1).map (fun e => e.data) = ds1 ∧
      (buildLog mac ds2).map (fun e => e.data) = ds2.drop 1 ∧
      (buildLog mac ds2).length = 200 ∧
      (verify_chain mac (buildLog mac ds2)).1 = true := by
  obtain ⟨hv1, hm1, _⟩ := buildLog_invariant mac ds1
  obtain ⟨hv2, hm2, hl2⟩ := buildLog_invariant mac ds2
  refine ⟨?_, ?_, ?_, ?_, ?_⟩
  · unfold verify_chain
    rw [hv1]
  · rw [hm1]
    have : ds1.length - 200 = 0 := by omega
    rw [this, List.drop_zero]
  · rw [hm2, h2]
  · rw [hl2, h2]
    omega
  · unfold verify_chain
    rw [hv2]


/-- Witness for C5: a 3-entry log and a 201-entry log over a concrete MAC. -/
theorem history_chain_spec_witness :
    (verify_chain (fun _ _ => "h") (buildLog (fun _ _ => "h") [10, 20, 30])).1 = true ∧
      (buildLog (fun _ _ => "h") [10, 20, 30]).map (fun e => e.data) = [10, 20, 30] ∧
      (buildLog (fun _ _ => "h") (List.replicate 201 0)).map (fun e => e.data) =
        (List.replicate 201 0).drop 1 ∧
      (buildLog (fun _ _ => "h") (List.replicate 201 (0 : Nat))).length = 200 ∧
      (verify_chain (fun _ _ => "h") (buildLog (fun _ _ => "h") (List.replicate 201 (0 : Nat)))).1
        = true :=
  history_chain_spec (fun _ _ => "h") ([10, 20, 30] : List Nat)
    (List.replicate 201 (0 : Nat)) (by decide) (by rw [List.length_replicate])

end AxCrypt
